import Mathlib

/-!
Verification development for the `UWSProvider` real-time event-broadcasting
layer: a shallow embedding of the provider's data model and event handlers
(options merge, connection registry, heartbeat sweep, local and backbone
broadcast, Redis relay), together with theorems checking the specification's
claims against it.
-/

set_option maxHeartbeats 1000000

namespace Teckos

/-! ## Packet codec

Modelled from the spec: the Packet Codec (`util/Converter`) is not part of the
provided sources; the spec requires a binary envelope with an exact round-trip
`decode (encode p) = p`, an `EVENT`/`ACK` type tag, and order-preserving
duck-typed data values. Bytes are modelled as natural-number tokens. -/

/-- Duck-typed packet argument values: strings, integers and booleans. -/
inductive TVal where
  | vstr : String → TVal
  | vnum : Int → TVal
  | vbool : Bool → TVal
deriving DecidableEq, Repr

/-- Wire packet type tags (`TeckosPacketType`). -/
inductive TeckosPacketType where
  | EVENT
  | ACK
deriving DecidableEq, Repr

/-- Wire packet: a type tag plus an ordered data sequence (`TeckosPacket`). -/
structure TeckosPacket where
  type : TeckosPacketType
  data : List TVal
deriving DecidableEq, Repr

/-- Modelled from the spec: encoding of one duck-typed value into byte tokens. -/
def encodeTVal : TVal → List Nat
  | .vstr s => 0 :: s.data.length :: s.data.map Char.toNat
  | .vnum i => 1 :: (if i < 0 then 1 else 0) :: [i.natAbs]
  | .vbool b => 2 :: [if b then 1 else 0]

/-- Modelled from the spec: encoding of a value sequence. -/
def encodeTVals (l : List TVal) : List Nat :=
  (l.map encodeTVal).flatten

/-- Numeric tag of a packet type. -/
def typeTag : TeckosPacketType → Nat
  | .EVENT => 0
  | .ACK => 1

/-- Modelled from the spec: `encodePacket` of `util/Converter` — type tag,
argument count, then the encoded arguments in order. -/
def encodePacket (p : TeckosPacket) : List Nat :=
  typeTag p.type :: p.data.length :: encodeTVals p.data

/-- Reads `n` characters from a token stream. -/
def takeChars : Nat → List Nat → Option (List Char × List Nat)
  | 0, rest => some ([], rest)
  | _ + 1, [] => none
  | n + 1, c :: rest => (takeChars n rest).map fun p => (Char.ofNat c :: p.1, p.2)

/-- Modelled from the spec: decoding of one duck-typed value. -/
def decodeTVal : List Nat → Option (TVal × List Nat)
  | 0 :: n :: rest => (takeChars n rest).map fun p => (.vstr ⟨p.1⟩, p.2)
  | 1 :: s :: m :: rest =>
      if s = 1 then some (.vnum (-(m : Int)), rest)
      else if s = 0 then some (.vnum (m : Int), rest)
      else none
  | 2 :: b :: rest =>
      if b = 1 then some (.vbool true, rest)
      else if b = 0 then some (.vbool false, rest)
      else none
  | _ => none

/-- Modelled from the spec: decoding of a counted value sequence. -/
def decodeTVals : Nat → List Nat → Option (List TVal × List Nat)
  | 0, rest => some ([], rest)
  | n + 1, bs =>
      match decodeTVal bs with
      | none => none
      | some (v, rest) =>
          match decodeTVals n rest with
          | none => none
          | some (vs, r) => some (v :: vs, r)

/-- Packet type recovered from its numeric tag. -/
def decodeType : Nat → Option TeckosPacketType
  | 0 => some .EVENT
  | 1 => some .ACK
  | _ => none

/-- Modelled from the spec: `decodePacket` of `util/Converter`; fails on
truncated or malformed input. -/
def decodePacket (bs : List Nat) : Option TeckosPacket :=
  match bs with
  | t :: n :: rest =>
      match decodeType t, decodeTVals n rest with
      | some ty, some (vs, []) => some ⟨ty, vs⟩
      | _, _ => none
  | _ => none

/-! ## Provider options

Embedded from the source: `TeckosOptions`, `DEFAULT_OPTION` and the options
merge performed in the `UWSProvider` constructor. JavaScript `||` treats `0`
and the empty string as falsy, which the merge functions reproduce. -/

/-- Caller-supplied options object (`TeckosOptions`); every field optional. -/
structure TeckosOptions where
  redisUrl : Option String := none
  pingInterval : Option Nat := none
  pingTimeout : Option Nat := none
  debug : Option Bool := none
deriving DecidableEq, Repr

/-- Defaults (`DEFAULT_OPTION`): pingInterval 25000, pingTimeout 5000. -/
def DEFAULT_OPTION : TeckosOptions :=
  { pingInterval := some 25000, pingTimeout := some 5000 }

/-- JavaScript `x || d` on an optional number: `0` is falsy. -/
def jsOrNat (o : Option Nat) (d : Nat) : Nat :=
  match o with
  | some n => if n = 0 then d else n
  | none => d

/-- JavaScript `x || undefined` on an optional string: `""` is falsy. -/
def jsOrUndef (o : Option String) : Option String :=
  match o with
  | some s => if s = "" then none else some s
  | none => none

/-- Options stored in `this._options` after the constructor's merge. -/
structure StoredOptions where
  redisUrl : Option String
  pingInterval : Nat
  pingTimeout : Nat
  debug : Option Bool
deriving DecidableEq, Repr

/-- The constructor's merge of caller options with `DEFAULT_OPTION`, exactly as
written in the source: `pingInterval: options?.pingInterval || 25000`,
`pingTimeout: options?.pingInterval || 5000` (the source reads `pingInterval`
on the right-hand side of `pingTimeout`), `redisUrl: options?.redisUrl ||
undefined`, `debug: options?.debug`. -/
def mergedOptions (options : Option TeckosOptions) : StoredOptions :=
  { redisUrl := jsOrUndef (options.bind TeckosOptions.redisUrl)
  , pingInterval := jsOrNat (options.bind TeckosOptions.pingInterval) 25000
  , pingTimeout := jsOrNat (options.bind TeckosOptions.pingInterval) 5000
  , debug := options.bind TeckosOptions.debug }

/-! ## Operational model of the provider

Embedded from the `UWSProvider` source: the transport callbacks installed by
the constructor (`open`, `message`, `pong`, `close`; `drain` only logs), the
heartbeat sweep `_keepAliveSockets`, the public API (`onConnection`, `toAll`,
`to`, `listen`) and the Redis relay callbacks. The uWS transport collaborator
is modelled by its contract: `publish` delivers a buffer once to every open
socket subscribed to the topic. -/

/-- Transport-level socket object (uWS `WebSocket`): a primitive object key,
the `id` field written by the open handler, the `alive` flag, and the topics
it is subscribed to. -/
structure WS where
  key : Nat
  id : String
  alive : Bool
  subs : List String
deriving DecidableEq, Repr

/-- Connection handle (`UWSSocket`): constructed with an identity and a
reference to its transport socket. Its debug flag controls only its own
logging and is not model state. -/
structure Handle where
  hid : String
  wsKey : Nat
deriving DecidableEq, Repr

/-- Provider state: stored options, the `_connections` registry (an
insertion-ordered association list, as JavaScript object keys are), the open
transport sockets, and the registered `onConnection` handlers, each
represented by whether it throws. -/
structure St where
  opts : StoredOptions
  conns : List (String × Handle)
  sockets : List WS
  handlers : List Bool
deriving DecidableEq, Repr

/-- Observable outputs of one step: local deliveries, backbone publishes,
pings, console logging, handler invocations and handle notifications. -/
inductive Out where
  | deliver : Nat → List Nat → Out
  | redisPub : String → List Nat → Out
  | ping : Nat → String → Out
  | log : String → Out
  | err : String → Out
  | handlerInvoked : Nat → String → Out
  | disconnected : String → Out
  | frameIn : String → List Nat → Out
deriving DecidableEq, Repr

/-- External events driving the provider: transport callbacks, the heartbeat
timer, public API calls, and backbone deliveries. `evOpen` carries the fresh
socket object key and the generated identity; `evJoin` is the handle-level
group join. -/
inductive Ev where
  | evOpen : Nat → String → Ev
  | evMessage : Nat → List Nat → Ev
  | evPong : Nat → Ev
  | evClose : Nat → Ev
  | evSweep : Ev
  | evToAll : String → List TVal → Ev
  | evTo : String → String → List TVal → Ev
  | evRedisMsg : String → List Nat → Ev
  | evRedisPMsg : String → List Nat → Ev
  | evJoin : Nat → String → Ev
  | evOnConnection : Bool → Ev
deriving DecidableEq, Repr

/-- Lookup in the `_connections` map. -/
def findConn (cs : List (String × Handle)) (u : String) : Option Handle :=
  (cs.find? fun p => p.1 == u).map Prod.snd

/-- JavaScript property write `_connections[u] = h`: overwrites an existing
key in place, otherwise appends. -/
def setConn (cs : List (String × Handle)) (u : String) (h : Handle) :
    List (String × Handle) :=
  if (cs.find? fun p => p.1 == u).isSome then
    cs.map fun p => if p.1 == u then (u, h) else p
  else cs ++ [(u, h)]

/-- JavaScript `delete _connections[u]`. -/
def delConn (cs : List (String × Handle)) (u : String) : List (String × Handle) :=
  cs.filter fun p => !(p.1 == u)

/-- Socket lookup by object key in the transport state. -/
def findSock (ss : List WS) (k : Nat) : Option WS :=
  ss.find? fun w => w.key == k

/-- Pointwise socket update by object key. -/
def updSock (ss : List WS) (k : Nat) (f : WS → WS) : List WS :=
  ss.map fun w => if w.key == k then f w else w

/-- Socket removal from the transport state. -/
def delSock (ss : List WS) (k : Nat) : List WS :=
  ss.filter fun w => !(w.key == k)

/-- Truthiness of the stored debug option (`if (this._options.debug)`). -/
def isDebug (o : StoredOptions) : Bool :=
  o.debug == some true

/-- Local publish of the transport (uWS `app.publish`): the buffer reaches
every open socket subscribed to the topic, once each. -/
def publishLocal (ss : List WS) (topic : String) (buf : List Nat) : List Out :=
  (ss.filter fun w => w.subs.contains topic).map fun w => Out.deliver w.key buf

/-- Invocation of the registered connection handlers inside the open
callback: the source wraps the whole `forEach` in one try/catch, so the first
handler that throws is invoked, its exception is logged by the surrounding
catch, and the remaining handlers are skipped. -/
def invokeHandlers : List Bool → Nat → String → List Out
  | [], _, _ => []
  | b :: hs, i, u =>
      if b then [Out.handlerInvoked i u, Out.err ("handlerError")]
      else Out.handlerInvoked i u :: invokeHandlers hs (i + 1) u

/-- Transport-level close of socket `k`: uWS invokes the provider's close
callback, which reads `ws.id`, logs when debugging, notifies the handle via
`onDisconnect` and deletes the registry entry; the socket object is gone from
the transport afterwards. -/
def closeSocket (st : St) (k : Nat) : St × List Out :=
  match findSock st.sockets k with
  | none => (st, [])
  | some w =>
      match findConn st.conns w.id with
      | some _ =>
          ({ st with conns := delConn st.conns w.id, sockets := delSock st.sockets k },
            (if isDebug st.opts then
              [Out.log ("Client " ++ w.id ++ " disconnected, removing from registry")]
            else []) ++ [Out.disconnected w.id])
      | none => ({ st with sockets := delSock st.sockets k }, [])

/-- Body of the heartbeat sweep for one registry key (`_keepAliveSockets`): a
live socket is marked stale and pinged; a stale one is force-disconnected.
Modelled from the spec for the missing `UWSSocket.disconnect`: it closes the
connection at the transport level, which triggers the close callback. -/
def sweepStep (st : St) (u : String) : St × List Out :=
  match findConn st.conns u with
  | none => (st, [])
  | some h =>
      match findSock st.sockets h.wsKey with
      | none => (st, [])
      | some w =>
          if w.alive then
            ({ st with
                sockets := updSock st.sockets h.wsKey fun w0 => { w0 with alive := false } },
              [Out.ping h.wsKey ("hey")])
          else
            let dbg :=
              if isDebug st.opts then
                [Out.log ("Ping pong timeout for " ++ u ++ ", disconnecting client")]
              else []
            let r := closeSocket st h.wsKey
            (r.1, dbg ++ r.2)

/-- Sweep over a snapshot of the registry keys
(`Object.keys(connections).forEach`). -/
def sweepGo (st : St) : List String → St × List Out
  | [] => (st, [])
  | u :: us =>
      let r1 := sweepStep st u
      let r2 := sweepGo r1.1 us
      (r2.1, r1.2 ++ r2.2)

/-- One step of the provider, embedded from the `UWSProvider` source. `evOpen`
is the open callback: subscribe to topic `a`, set `ws.id` and `ws.alive`,
register the handle, run the connection handlers. `evMessage` dispatches by
`ws.id` and logs unknown identities. `evSweep` is one firing of the heartbeat
timer. `evToAll` and `evTo` encode once and either publish on the backbone
(when a Redis url is configured) or locally. `evRedisMsg` and `evRedisPMsg`
are the backbone relay callbacks: both republish locally to the channel name
with its first two characters dropped (`channel.substr(2)`), and never to the
backbone. -/
def step (st : St) : Ev → St × List Out
  | .evOpen k u =>
      let w : WS := { key := k, id := u, alive := true, subs := ["a"] }
      let st1 := { st with
        sockets := st.sockets ++ [w],
        conns := setConn st.conns u { hid := u, wsKey := k } }
      (st1, invokeHandlers st.handlers 0 u)
  | .evMessage k buf =>
      match findSock st.sockets k with
      | none => (st, [])
      | some w =>
          match findConn st.conns w.id with
          | some _ => (st, [Out.frameIn w.id buf])
          | none => (st, [Out.err ("Got message from unknown connection: " ++ w.id)])
  | .evPong k =>
      ({ st with sockets := updSock st.sockets k fun w => { w with alive := true } }, [])
  | .evClose k => closeSocket st k
  | .evSweep => sweepGo st (st.conns.map Prod.fst)
  | .evToAll event args =>
      let buf := encodePacket { type := .EVENT, data := .vstr event :: args }
      if st.opts.redisUrl.isSome then (st, [Out.redisPub ("a") buf])
      else
        (st, (if isDebug st.opts then
            [Out.log ("Publishing event " ++ event ++ " to group a")]
          else []) ++ publishLocal st.sockets "a" buf)
  | .evTo g event args =>
      let buf := encodePacket { type := .EVENT, data := .vstr event :: args }
      if st.opts.redisUrl.isSome then (st, [Out.redisPub ("g." ++ g) buf])
      else
        (st, (if isDebug st.opts then
            [Out.log ("Publishing event " ++ event ++ " to group " ++ g)]
          else []) ++ publishLocal st.sockets g buf)
  | .evRedisMsg channel buf =>
      if st.opts.redisUrl.isSome then (st, publishLocal st.sockets (channel.drop 2) buf)
      else (st, [])
  | .evRedisPMsg channel buf =>
      if st.opts.redisUrl.isSome then
        (st, (if isDebug st.opts then
            [Out.log ("Publishing message from REDIS to group " ++ channel.drop 2)]
          else []) ++ publishLocal st.sockets (channel.drop 2) buf)
      else (st, [])
  | .evJoin k g =>
      ({ st with sockets := updSock st.sockets k fun w =>
          { w with subs := if w.subs.contains g then w.subs else w.subs ++ [g] } }, [])
  | .evOnConnection b => ({ st with handlers := st.handlers ++ [b] }, [])

/-- Provider state right after the `UWSProvider` constructor ran. -/
def initSt (options : Option TeckosOptions) : St :=
  { opts := mergedOptions options, conns := [], sockets := [], handlers := [] }

/-- Run over an event trace, accumulating outputs. -/
def runTrace (st : St) : List Ev → St × List Out
  | [] => (st, [])
  | e :: es =>
      let r1 := step st e
      let r2 := runTrace r1.1 es
      (r2.1, r1.2 ++ r2.2)

/-- Transport and uuid-generator guarantees: an open event carries a fresh
socket object and a freshly generated identity. -/
def freshEv (st : St) (e : Ev) : Bool :=
  match e with
  | .evOpen k u => (findSock st.sockets k).isNone && (findConn st.conns u).isNone
  | _ => true

/-- A trace all of whose open events are fresh in the state where they occur. -/
def validTrace (st : St) : List Ev → Bool
  | [] => true
  | e :: es => freshEv st e && validTrace (step st e).1 es

/-- The `listen` method: the returned promise resolves with the provider
itself exactly when the transport invokes the listen callback with a truthy
listen socket, and rejects with an error naming the port otherwise. -/
def providerListen (st : St) (port : Nat) (listenSocket : Bool) : Except String St :=
  if listenSocket then Except.ok st
  else Except.error ("Could not listen on port " ++ toString port)

/-! ## Observation projections and invariants -/

/-- Number of transport deliveries to socket `k` among the outputs. -/
def deliverCount (outs : List Out) (k : Nat) : Nat :=
  outs.countP fun o =>
    match o with
    | .deliver j _ => j == k
    | _ => false

/-- Diagnostic console.log output. -/
def isDiag (o : Out) : Bool :=
  match o with
  | .log _ => true
  | _ => false

/-- Outputs with the diagnostic logging removed. -/
def stripDiag (outs : List Out) : List Out :=
  outs.filter fun o => !(isDiag o)

/-- The same state with only the debug option replaced. -/
def setDebug (st : St) (d : Option Bool) : St :=
  { st with opts := { st.opts with debug := d } }

/-- Indices of the connection handlers invoked, in invocation order. -/
def handlerCalls (outs : List Out) : List Nat :=
  outs.filterMap fun o =>
    match o with
    | .handlerInvoked i _ => some i
    | _ => none

/-- Index one past the first throwing handler, or the handler count when none
throws: exactly the handlers the open callback reaches. -/
def firstThrowBound : List Bool → Nat
  | [] => 0
  | b :: hs => if b then 1 else firstThrowBound hs + 1

/-- Well-formedness of a provider state, invariant over reachable states:
registry keys and socket object keys are duplicate-free, every handle carries
its map key as identity, every registry entry owns a transport socket with
matching key and identity, and every transport socket belongs to a registry
entry with matching key. -/
def WF (st : St) : Prop :=
  (st.conns.map Prod.fst).Nodup ∧
  (st.sockets.map WS.key).Nodup ∧
  (∀ p ∈ st.conns, p.2.hid = p.1) ∧
  (∀ p ∈ st.conns, ∃ w ∈ st.sockets, w.key = p.2.wsKey ∧ w.id = p.1) ∧
  (∀ w ∈ st.sockets, ∃ p ∈ st.conns, p.1 = w.id ∧ p.2.wsKey = w.key)

instance (st : St) : Decidable (WF st) := by
  unfold WF
  infer_instance

/-- The registry invariant of claim C10: every key of the connection map maps
to a handle constructed with that identity, and the underlying transport
socket's `id` field equals it as well. -/
def RegistryInv (st : St) : Prop :=
  ∀ p ∈ st.conns, p.2.hid = p.1 ∧ ∀ w ∈ st.sockets, w.key = p.2.wsKey → w.id = p.1

/-! ## Concrete scenario states for witnesses and counterexamples -/

/-- Options carrying a backbone url. -/
def optBackbone : TeckosOptions := { redisUrl := some ("redis://localhost") }

/-- Options with both ping fields set, exposing the constructor's merge. -/
def optBothPings : TeckosOptions :=
  { pingInterval := some 30000, pingTimeout := some 7000 }

/-- Options with only a ping timeout. -/
def optOnlyTimeout : TeckosOptions := { pingTimeout := some 7000 }

/-- Handle of the first demo connection. -/
def hA : Handle := { hid := "idA", wsKey := 0 }

/-- Handle of the second demo connection. -/
def hB : Handle := { hid := "idB", wsKey := 1 }

/-- Socket of the first demo connection. -/
def wA : WS := { key := 0, id := "idA", alive := true, subs := ["a"] }

/-- Socket of the second demo connection. -/
def wB : WS := { key := 1, id := "idB", alive := true, subs := ["a"] }

/-- Backbone-active provider with one registered connection subscribed to the
global topic. -/
def stBackbone : St :=
  { opts := mergedOptions (some optBackbone)
  , conns := [("idA", hA)]
  , sockets := [wA]
  , handlers := [] }

/-- Local-only provider with two registered connections. -/
def stTwo : St :=
  { opts := mergedOptions none
  , conns := [("idA", hA), ("idB", hB)]
  , sockets := [wA, wB]
  , handlers := [] }

/-- Local-only provider whose first registered handler throws. -/
def stThrowing : St :=
  { opts := mergedOptions none
  , conns := []
  , sockets := []
  , handlers := [true, false] }

/-- The encoded demo broadcast packet. -/
def bufPing : List Nat :=
  encodePacket { type := .EVENT, data := [.vstr "ping", .vnum 42] }

/-- Demo trace: two connections open, they join disjoint groups, a sweep runs
and the first connection closes. -/
def traceDemo : List Ev :=
  [.evOpen 0 "idA", .evOpen 1 "idB", .evJoin 0 "room1", .evJoin 1 "room2",
    .evSweep, .evPong 0, .evPong 1, .evClose 0]

/-- State reached by opening two connections and joining disjoint groups. -/
def stGroups : St :=
  (runTrace (initSt none) [.evOpen 0 "idA", .evOpen 1 "idB",
    .evJoin 0 "room1", .evJoin 1 "room2"]).1

/-- First demo socket after joining group room1. -/
def wAroom : WS := { key := 0, id := "idA", alive := true, subs := ["a", "room1"] }

/-- Second demo socket after joining group room2. -/
def wBroom : WS := { key := 1, id := "idB", alive := true, subs := ["a", "room2"] }

/-! ## Codec round-trip -/

theorem takeChars_encode (cs : List Char) (r : List Nat) :
    takeChars cs.length (cs.map Char.toNat ++ r) = some (cs, r) := by
  induction cs with
  | nil => rfl
  | cons c cs ih =>
      simp [takeChars, ih, Char.ofNat_toNat]

theorem decodeTVal_encode (v : TVal) (r : List Nat) :
    decodeTVal (encodeTVal v ++ r) = some (v, r) := by
  cases v with
  | vstr s =>
      obtain ⟨cs⟩ := s
      have henc : encodeTVal (TVal.vstr ⟨cs⟩) ++ r
          = 0 :: cs.length :: (cs.map Char.toNat ++ r) := by
        simp [encodeTVal]
      rw [henc]
      simp only [decodeTVal, takeChars_encode, Option.map_some']
  | vnum i =>
      by_cases h : i < 0
      · have henc : encodeTVal (TVal.vnum i) ++ r = 1 :: 1 :: i.natAbs :: r := by
          simp [encodeTVal, h]
        rw [henc]
        simp only [decodeTVal, if_pos rfl]
        have hv : -(i.natAbs : Int) = i := by omega
        rw [hv]
        simp
      · have henc : encodeTVal (TVal.vnum i) ++ r = 1 :: 0 :: i.natAbs :: r := by
          simp [encodeTVal, h]
        rw [henc]
        simp only [decodeTVal]
        norm_num
        omega
  | vbool b =>
      cases b <;> simp [encodeTVal, decodeTVal]

theorem decodeTVals_encode (l : List TVal) (r : List Nat) :
    decodeTVals l.length (encodeTVals l ++ r) = some (l, r) := by
  induction l generalizing r with
  | nil => rfl
  | cons v vs ih =>
      simp only [encodeTVals, List.map_cons, List.flatten_cons, List.length_cons,
        List.append_assoc]
      simp only [decodeTVals, decodeTVal_encode]
      have := ih r
      simp only [encodeTVals] at this
      simp [this]

/-- Round-trip property of the codec: decoding an encoded packet gives the
packet back (spec §4.1 and §8.1). -/
theorem decodePacket_encodePacket (p : TeckosPacket) :
    decodePacket (encodePacket p) = some p := by
  obtain ⟨ty, data⟩ := p
  have h := decodeTVals_encode data []
  simp only [List.append_nil] at h
  cases ty <;> simp [encodePacket, decodePacket, typeTag, decodeType, h]

/-! ## Lookup helper lemmas -/

theorem findConn_eq_some {cs : List (String × Handle)} {u : String} {h : Handle}
    (he : findConn cs u = some h) : (u, h) ∈ cs := by
  unfold findConn at he
  obtain ⟨p, hp, hph⟩ := Option.map_eq_some'.mp he
  have hm := List.mem_of_find?_eq_some hp
  have hu : p.1 = u := by simpa using List.find?_some hp
  obtain ⟨p1, p2⟩ := p
  simp only at hu hph
  subst hu; subst hph
  exact hm

theorem findConn_isSome_of_mem {cs : List (String × Handle)} {u : String} {h : Handle}
    (hm : (u, h) ∈ cs) : (findConn cs u).isSome = true := by
  unfold findConn
  rw [Option.isSome_map']
  exact List.find?_isSome.mpr ⟨(u, h), hm, by simp⟩

theorem findConn_eq_none_iff {cs : List (String × Handle)} {u : String} :
    findConn cs u = none ↔ ∀ p ∈ cs, p.1 ≠ u := by
  unfold findConn
  rw [Option.map_eq_none', List.find?_eq_none]
  simp

theorem findConn_of_mem_nodup {cs : List (String × Handle)} {u : String} {h : Handle}
    (hnd : (cs.map Prod.fst).Nodup) (hm : (u, h) ∈ cs) : findConn cs u = some h := by
  cases he : findConn cs u with
  | none => exact absurd rfl (findConn_eq_none_iff.mp he (u, h) hm)
  | some h' =>
      have hm' := findConn_eq_some he
      have hp : (u, h') = (u, h) := List.inj_on_of_nodup_map hnd hm' hm rfl
      have : h' = h := congrArg Prod.snd hp
      rw [this]

theorem findSock_eq_some {ss : List WS} {k : Nat} {w : WS}
    (he : findSock ss k = some w) : w ∈ ss ∧ w.key = k := by
  unfold findSock at he
  exact ⟨List.mem_of_find?_eq_some he, by simpa using List.find?_some he⟩

theorem findSock_eq_none_iff {ss : List WS} {k : Nat} :
    findSock ss k = none ↔ ∀ w ∈ ss, w.key ≠ k := by
  unfold findSock
  rw [List.find?_eq_none]
  simp

theorem findSock_of_mem_nodup {ss : List WS} {k : Nat} {w : WS}
    (hnd : (ss.map WS.key).Nodup) (hm : w ∈ ss) (hk : w.key = k) :
    findSock ss k = some w := by
  cases he : findSock ss k with
  | none => exact absurd hk (findSock_eq_none_iff.mp he w hm)
  | some w' =>
      obtain ⟨hm', hk'⟩ := findSock_eq_some he
      have : w' = w := List.inj_on_of_nodup_map hnd hm' hm (by rw [hk', hk])
      rw [this]

theorem setConn_fresh {cs : List (String × Handle)} {u : String} (h : Handle)
    (hf : findConn cs u = none) : setConn cs u h = cs ++ [(u, h)] := by
  unfold findConn at hf
  rw [Option.map_eq_none'] at hf
  unfold setConn
  rw [hf]
  simp

theorem mem_setConn_self (cs : List (String × Handle)) (u : String) (h : Handle) :
    (u, h) ∈ setConn cs u h := by
  unfold setConn
  split
  · next hs =>
      obtain ⟨p, hp, hpu⟩ := List.find?_isSome.mp hs
      refine List.mem_map.mpr ⟨p, hp, ?_⟩
      rw [if_pos hpu]
  · simp

/-! ## Claim C1: the backbone relay and toAll -/

/-- C1: the claim fails on the code: with a backbone active, `toAll` publishes
the encoded packet on the global channel `a`, but the inbound relay republishes
to `channel.substr(2)` — the empty topic for the one-character global channel —
so the registered local connection subscribed to `a` receives nothing, even
though a direct local publish on `a` would deliver to it. -/
theorem C1_relay_drops_global_channel :
    (step stBackbone (.evToAll "ping" [.vnum 42])).2 = [Out.redisPub "a" bufPing]
    ∧ (step stBackbone (.evRedisMsg "a" bufPing)).2 = []
    ∧ publishLocal stBackbone.sockets "a" bufPing = [Out.deliver 0 bufPing] := by
  decide

/-! ## Claim C2: handler invocation in the open callback -/

theorem handlerCalls_invokeHandlers (hs : List Bool) (i : Nat) (u : String) :
    handlerCalls (invokeHandlers hs i u)
      = (List.range (firstThrowBound hs)).map (i + ·) := by
  induction hs generalizing i with
  | nil => rfl
  | cons b hs ih =>
      cases b with
      | true =>
          have hstep : handlerCalls (invokeHandlers (true :: hs) i u) = [i] := rfl
          have hb : firstThrowBound (true :: hs) = 1 := rfl
          rw [hstep, hb]
          rfl
      | false =>
          have hstep : handlerCalls (invokeHandlers (false :: hs) i u)
              = i :: handlerCalls (invokeHandlers hs (i + 1) u) := rfl
          have hb : firstThrowBound (false :: hs) = firstThrowBound hs + 1 := rfl
          rw [hstep, ih (i + 1), hb, List.range_succ_eq_map]
          simp only [List.map_cons, List.map_map, Nat.add_zero]
          congr 1
          exact List.map_congr_left fun x _ => by
            simp only [Function.comp_apply]
            omega

theorem errLogged_invokeHandlers (hs : List Bool) (i : Nat) (u : String) :
    Out.err ("handlerError") ∈ invokeHandlers hs i u ↔ true ∈ hs := by
  induction hs generalizing i with
  | nil => simp [invokeHandlers]
  | cons b hs ih =>
      cases b with
      | true => simp [invokeHandlers]
      | false => simp [invokeHandlers, ih (i + 1)]

/-- C2, counterexample: with two registered handlers of which the first
throws, the second handler is never invoked for the new connection, although
the first one was and its exception was caught and logged — refuting the
claim that the remaining handlers still run. -/
theorem C2_counterexample :
    Out.handlerInvoked 1 "idA" ∉ (step stThrowing (.evOpen 0 "idA")).2
    ∧ Out.handlerInvoked 0 "idA" ∈ (step stThrowing (.evOpen 0 "idA")).2
    ∧ Out.err ("handlerError") ∈ (step stThrowing (.evOpen 0 "idA")).2 := by
  decide

/-- C2, amended: for every new connection the registered handlers are invoked
once each in registration order up to and including the first handler that
throws; that exception is caught and logged, and the connection's acceptance
is not aborted (its handle is registered), but handlers after the throwing
one are skipped for that connection. -/
theorem C2_open_handler_dispatch (st : St) (k : Nat) (u : String) :
    handlerCalls (step st (.evOpen k u)).2 = List.range (firstThrowBound st.handlers)
    ∧ (Out.err ("handlerError") ∈ (step st (.evOpen k u)).2 ↔ true ∈ st.handlers)
    ∧ (u, ⟨u, k⟩) ∈ (step st (.evOpen k u)).1.conns := by
  refine ⟨?_, ?_, ?_⟩
  · show handlerCalls (invokeHandlers st.handlers 0 u) = _
    rw [handlerCalls_invokeHandlers]
    simp
  · exact errLogged_invokeHandlers st.handlers 0 u
  · exact mem_setConn_self st.conns u ⟨u, k⟩

/-! ## Claim C3: the options merge -/

/-- C3: the claim fails on the code: the constructor stores
`options?.pingInterval || 5000` into `pingTimeout` (a slip reading
`pingInterval`), so a caller-supplied `pingTimeout` of 7000 is ignored: with
both fields given the stored timeout equals the supplied interval, and with
only `pingTimeout` given the default 5000 is stored. -/
theorem C3_pingTimeout_merge :
    (mergedOptions (some optBothPings)).pingTimeout = 30000
    ∧ (mergedOptions (some optBothPings)).pingTimeout ≠ 7000
    ∧ (mergedOptions (some optOnlyTimeout)).pingTimeout = 5000
    ∧ (mergedOptions none).pingTimeout = 5000
    ∧ (mergedOptions none).pingInterval = 25000
    ∧ (mergedOptions (some optBothPings)).pingInterval = 30000 := by
  decide

/-! ## Claim C8: listen -/

/-- C8: `listen(port)` resolves with the provider exactly when the transport
reports a (truthy) listen socket for that port, and rejects with an error
naming the port otherwise. -/
theorem C8_listen (st : St) (port : Nat) (s : Bool) :
    (providerListen st port s = Except.ok st ↔ s = true)
    ∧ (s = false → providerListen st port s
        = Except.error ("Could not listen on port " ++ toString port)) := by
  constructor
  · cases s <;> simp [providerListen]
  · intro hs
    subst hs
    simp [providerListen]

/-- C8 witness: a failed bind on port 8080 rejects with the expected error. -/
theorem C8_listen_witness :
    providerListen (initSt none) 8080 false
      = Except.error ("Could not listen on port " ++ toString 8080) :=
  (C8_listen (initSt none) 8080 false).2 rfl

/-! ## Well-formedness preservation -/

theorem sock_unique {ss : List WS} (hnd : (ss.map WS.key).Nodup) {w w' : WS}
    (hm : w ∈ ss) (hm' : w' ∈ ss) (hk : w.key = w'.key) : w = w' :=
  List.inj_on_of_nodup_map hnd hm hm' hk

theorem conn_unique {cs : List (String × Handle)} (hnd : (cs.map Prod.fst).Nodup)
    {p q : String × Handle} (hm : p ∈ cs) (hm' : q ∈ cs) (h : p.1 = q.1) : p = q :=
  List.inj_on_of_nodup_map hnd hm hm' h

theorem mem_delConn {cs : List (String × Handle)} {p : String × Handle} {u : String} :
    p ∈ delConn cs u ↔ p ∈ cs ∧ p.1 ≠ u := by
  unfold delConn
  rw [List.mem_filter]
  simp

theorem mem_delSock {ss : List WS} {w : WS} {k : Nat} :
    w ∈ delSock ss k ↔ w ∈ ss ∧ w.key ≠ k := by
  unfold delSock
  rw [List.mem_filter]
  simp

theorem closeSocket_nosock {st : St} {k : Nat} (hfs : findSock st.sockets k = none) :
    closeSocket st k = (st, []) := by
  simp only [closeSocket, hfs]

theorem closeSocket_found {st : St} {k : Nat} {w : WS} {h0 : Handle}
    (hfs : findSock st.sockets k = some w) (hfc : findConn st.conns w.id = some h0) :
    closeSocket st k
      = ({ st with conns := delConn st.conns w.id, sockets := delSock st.sockets k },
          (if isDebug st.opts then
            [Out.log ("Client " ++ w.id ++ " disconnected, removing from registry")]
          else []) ++ [Out.disconnected w.id]) := by
  simp only [closeSocket, hfs, hfc]

theorem closeSocket_noconn {st : St} {k : Nat} {w : WS}
    (hfs : findSock st.sockets k = some w) (hfc : findConn st.conns w.id = none) :
    closeSocket st k = ({ st with sockets := delSock st.sockets k }, []) := by
  simp only [closeSocket, hfs, hfc]

theorem sweepStep_noconn {st : St} {u : String} (hfc : findConn st.conns u = none) :
    sweepStep st u = (st, []) := by
  simp only [sweepStep, hfc]

theorem sweepStep_nosock {st : St} {u : String} {h : Handle}
    (hfc : findConn st.conns u = some h) (hfs : findSock st.sockets h.wsKey = none) :
    sweepStep st u = (st, []) := by
  simp only [sweepStep, hfc, hfs]

theorem sweepStep_alive {st : St} {u : String} {h : Handle} {w : WS}
    (hfc : findConn st.conns u = some h) (hfs : findSock st.sockets h.wsKey = some w)
    (ha : w.alive = true) :
    sweepStep st u
      = ({ st with
            sockets := updSock st.sockets h.wsKey fun w0 => { w0 with alive := false } },
          [Out.ping h.wsKey ("hey")]) := by
  simp only [sweepStep, hfc, hfs, ha, if_true]

theorem sweepStep_dead {st : St} {u : String} {h : Handle} {w : WS}
    (hfc : findConn st.conns u = some h) (hfs : findSock st.sockets h.wsKey = some w)
    (ha : w.alive = false) :
    sweepStep st u
      = ((closeSocket st h.wsKey).1,
          (if isDebug st.opts then
            [Out.log ("Ping pong timeout for " ++ u ++ ", disconnecting client")]
          else []) ++ (closeSocket st h.wsKey).2) := by
  simp only [sweepStep, hfc, hfs, ha, Bool.false_eq_true, if_false]

theorem step_message_nosock {st : St} {k : Nat} {buf : List Nat}
    (hfs : findSock st.sockets k = none) :
    step st (.evMessage k buf) = (st, []) := by
  simp only [step, hfs]

theorem step_message_known {st : St} {k : Nat} {buf : List Nat} {w : WS} {h0 : Handle}
    (hfs : findSock st.sockets k = some w) (hfc : findConn st.conns w.id = some h0) :
    step st (.evMessage k buf) = (st, [Out.frameIn w.id buf]) := by
  simp only [step, hfs, hfc]

theorem step_message_unknown {st : St} {k : Nat} {buf : List Nat} {w : WS}
    (hfs : findSock st.sockets k = some w) (hfc : findConn st.conns w.id = none) :
    step st (.evMessage k buf)
      = (st, [Out.err ("Got message from unknown connection: " ++ w.id)]) := by
  simp only [step, hfs, hfc]

theorem WF_updSock (st : St) (k : Nat) (f : WS → WS)
    (hf : ∀ w, (f w).key = w.key ∧ (f w).id = w.id) (hwf : WF st) :
    WF { st with sockets := updSock st.sockets k f } := by
  obtain ⟨h1, h2, h3, h4, h5⟩ := hwf
  have hkeys : (updSock st.sockets k f).map WS.key = st.sockets.map WS.key := by
    unfold updSock
    rw [List.map_map]
    exact List.map_congr_left fun w _ => by
      by_cases hc : w.key = k <;> simp [Function.comp_apply, hc, (hf w).1]
  refine ⟨h1, ?_, h3, ?_, ?_⟩
  · rw [hkeys]; exact h2
  · intro p hp
    obtain ⟨w, hw, hk, hid⟩ := h4 p hp
    by_cases hc : w.key = k
    · refine ⟨f w, ?_, ?_, ?_⟩
      · exact List.mem_map.mpr ⟨w, hw, by simp [hc]⟩
      · rw [(hf w).1, hk]
      · rw [(hf w).2, hid]
    · refine ⟨w, ?_, hk, hid⟩
      exact List.mem_map.mpr ⟨w, hw, by simp [hc]⟩
  · intro w' hw'
    obtain ⟨w, hw, hweq⟩ := List.mem_map.mp hw'
    obtain ⟨p, hp, hpid, hpkey⟩ := h5 w hw
    refine ⟨p, hp, ?_, ?_⟩ <;> subst hweq <;>
      by_cases hc : w.key = k <;>
        simp [hc, (hf w).1, (hf w).2, hpid, hpkey]

theorem WF_closeSocket (st : St) (k : Nat) (hwf : WF st) : WF (closeSocket st k).1 := by
  obtain ⟨h1, h2, h3, h4, h5⟩ := hwf
  cases hfs : findSock st.sockets k with
  | none =>
      rw [closeSocket_nosock hfs]
      exact ⟨h1, h2, h3, h4, h5⟩
  | some w =>
      obtain ⟨hwmem, hwkey⟩ := findSock_eq_some hfs
      cases hfc : findConn st.conns w.id with
      | none =>
          exfalso
          obtain ⟨p, hp, hpid, _⟩ := h5 w hwmem
          have hsome : (findConn st.conns w.id).isSome = true :=
            findConn_isSome_of_mem (show (w.id, p.2) ∈ st.conns from by
              obtain ⟨p1, p2⟩ := p
              simp only at hpid
              rw [← hpid]
              exact hp)
          rw [hfc] at hsome
          simp at hsome
      | some h0 =>
          rw [closeSocket_found hfs hfc]
          refine ⟨?_, ?_, ?_, ?_, ?_⟩
          · exact ((List.filter_sublist _).map Prod.fst).nodup h1
          · exact ((List.filter_sublist _).map WS.key).nodup h2
          · intro p hp
            exact h3 p (mem_delConn.mp hp).1
          · intro p hp
            obtain ⟨hpc, hne⟩ := mem_delConn.mp hp
            obtain ⟨w', hw', hk', hid'⟩ := h4 p hpc
            refine ⟨w', mem_delSock.mpr ⟨hw', ?_⟩, hk', hid'⟩
            intro hkk
            have : w' = w := sock_unique h2 hw' hwmem (by rw [hkk, hwkey])
            rw [this] at hid'
            exact hne (by rw [← hid'])
          · intro w' hw'
            obtain ⟨hwc, hne⟩ := mem_delSock.mp hw'
            obtain ⟨p, hp, hpid, hpk⟩ := h5 w' hwc
            obtain ⟨q, hq, hqid, hqk⟩ := h5 w hwmem
            refine ⟨p, mem_delConn.mpr ⟨hp, ?_⟩, hpid, hpk⟩
            intro hpw
            have : p = q := conn_unique h1 hp hq (by rw [hpw, hqid])
            rw [this] at hpk
            rw [hqk] at hpk
            exact hne (by rw [← hpk]; exact hwkey)

theorem WF_open (st : St) (k : Nat) (u : String)
    (hfk : findSock st.sockets k = none) (hfu : findConn st.conns u = none)
    (hwf : WF st) : WF (step st (.evOpen k u)).1 := by
  obtain ⟨h1, h2, h3, h4, h5⟩ := hwf
  have hkeys := findSock_eq_none_iff.mp hfk
  have hconns := findConn_eq_none_iff.mp hfu
  show WF { st with
    sockets := st.sockets ++ [{ key := k, id := u, alive := true, subs := ["a"] }],
    conns := setConn st.conns u { hid := u, wsKey := k } }
  rw [setConn_fresh _ hfu]
  refine ⟨?_, ?_, ?_, ?_, ?_⟩
  · rw [List.map_append]
    rw [List.nodup_append]
    refine ⟨h1, by simp, ?_⟩
    intro a ha
    simp only [List.map_cons, List.map_nil, List.mem_singleton]
    obtain ⟨p, hp, hpa⟩ := List.mem_map.mp ha
    intro hau
    exact hconns p hp (by rw [hpa, hau])
  · rw [List.map_append]
    rw [List.nodup_append]
    refine ⟨h2, by simp, ?_⟩
    intro a ha
    simp only [List.map_cons, List.map_nil, List.mem_singleton]
    obtain ⟨w, hw, hwa⟩ := List.mem_map.mp ha
    intro hak
    exact hkeys w hw (by rw [hwa, hak])
  · intro p hp
    rcases List.mem_append.mp hp with hl | hr
    · exact h3 p hl
    · simp only [List.mem_singleton] at hr
      rw [hr]
  · intro p hp
    rcases List.mem_append.mp hp with hl | hr
    · obtain ⟨w', hw', hk', hid'⟩ := h4 p hl
      exact ⟨w', List.mem_append.mpr (Or.inl hw'), hk', hid'⟩
    · simp only [List.mem_singleton] at hr
      refine ⟨{ key := k, id := u, alive := true, subs := ["a"] },
        List.mem_append.mpr (Or.inr (by simp)), ?_, ?_⟩ <;> rw [hr]
  · intro w hw
    rcases List.mem_append.mp hw with hl | hr
    · obtain ⟨p, hp, hpid, hpk⟩ := h5 w hl
      exact ⟨p, List.mem_append.mpr (Or.inl hp), hpid, hpk⟩
    · simp only [List.mem_singleton] at hr
      refine ⟨(u, { hid := u, wsKey := k }),
        List.mem_append.mpr (Or.inr (by simp)), ?_, ?_⟩ <;> rw [hr]

theorem WF_sweepStep (st : St) (u : String) (hwf : WF st) : WF (sweepStep st u).1 := by
  cases hfc : findConn st.conns u with
  | none =>
      rw [sweepStep_noconn hfc]
      exact hwf
  | some h =>
      cases hfs : findSock st.sockets h.wsKey with
      | none =>
          rw [sweepStep_nosock hfc hfs]
          exact hwf
      | some w =>
          cases ha : w.alive with
          | true =>
              rw [sweepStep_alive hfc hfs ha]
              exact WF_updSock st h.wsKey _ (fun w0 => ⟨rfl, rfl⟩) hwf
          | false =>
              rw [sweepStep_dead hfc hfs ha]
              exact WF_closeSocket st h.wsKey hwf

theorem WF_sweepGo (st : St) (us : List String) (hwf : WF st) : WF (sweepGo st us).1 := by
  induction us generalizing st with
  | nil => exact hwf
  | cons u us ih =>
      show WF (sweepGo (sweepStep st u).1 us).1
      exact ih _ (WF_sweepStep st u hwf)

theorem WF_step (st : St) (e : Ev) (hfr : freshEv st e = true) (hwf : WF st) :
    WF (step st e).1 := by
  cases e with
  | evOpen k u =>
      simp only [freshEv, Bool.and_eq_true, Option.isNone_iff_eq_none] at hfr
      exact WF_open st k u hfr.1 hfr.2 hwf
  | evMessage k buf =>
      cases hfs : findSock st.sockets k with
      | none =>
          rw [step_message_nosock hfs]
          exact hwf
      | some w =>
          cases hfc : findConn st.conns w.id with
          | some h0 =>
              rw [step_message_known hfs hfc]
              exact hwf
          | none =>
              rw [step_message_unknown hfs hfc]
              exact hwf
  | evPong k => exact WF_updSock st k _ (fun w => ⟨rfl, rfl⟩) hwf
  | evClose k => exact WF_closeSocket st k hwf
  | evSweep => exact WF_sweepGo st _ hwf
  | evToAll event args =>
      have hst : (step st (.evToAll event args)).1 = st := by
        simp only [step]
        split <;> rfl
      rw [hst]; exact hwf
  | evTo g event args =>
      have hst : (step st (.evTo g event args)).1 = st := by
        simp only [step]
        split <;> rfl
      rw [hst]; exact hwf
  | evRedisMsg channel buf =>
      have hst : (step st (.evRedisMsg channel buf)).1 = st := by
        simp only [step]
        split <;> rfl
      rw [hst]; exact hwf
  | evRedisPMsg channel buf =>
      have hst : (step st (.evRedisPMsg channel buf)).1 = st := by
        simp only [step]
        split <;> rfl
      rw [hst]; exact hwf
  | evJoin k g => exact WF_updSock st k _ (fun w => ⟨rfl, rfl⟩) hwf
  | evOnConnection b =>
      obtain ⟨h1, h2, h3, h4, h5⟩ := hwf
      exact ⟨h1, h2, h3, h4, h5⟩

theorem WF_initSt (options : Option TeckosOptions) : WF (initSt options) := by
  refine ⟨?_, ?_, ?_, ?_, ?_⟩ <;> simp [initSt]

theorem WF_runTrace (st : St) (evs : List Ev) (hv : validTrace st evs = true)
    (hwf : WF st) : WF (runTrace st evs).1 := by
  induction evs generalizing st with
  | nil => exact hwf
  | cons e es ih =>
      simp only [validTrace, Bool.and_eq_true] at hv
      show WF (runTrace (step st e).1 es).1
      exact ih _ hv.2 (WF_step st e hv.1 hwf)

/-! ## Claim C10: the registry invariant -/

/-- C10: after any valid trace of open, message, pong, close, heartbeat-sweep,
broadcast and backbone events from a freshly constructed provider, every key
of the connection map maps to a handle constructed with that same identity,
and the underlying transport socket's `id` field equals that key as well. -/
theorem C10_registry_invariant (options : Option TeckosOptions) (evs : List Ev)
    (hv : validTrace (initSt options) evs = true) :
    RegistryInv (runTrace (initSt options) evs).1 := by
  obtain ⟨h1, h2, h3, h4, h5⟩ :=
    WF_runTrace (initSt options) evs hv (WF_initSt options)
  intro p hp
  refine ⟨h3 p hp, ?_⟩
  intro w hw hk
  obtain ⟨w', hw', hk', hid'⟩ := h4 p hp
  have : w = w' := sock_unique h2 hw hw' (by rw [hk, hk'])
  rw [this, hid']

/-- C10 witness: the registry invariant after a concrete demo trace. -/
theorem C10_registry_invariant_witness :
    RegistryInv (runTrace (initSt none) traceDemo).1 :=
  C10_registry_invariant none traceDemo (by decide)

/-! ## Heartbeat sweep behavior -/

theorem sweepGo_cons (st : St) (u : String) (us : List String) :
    sweepGo st (u :: us)
      = ((sweepGo (sweepStep st u).1 us).1,
          (sweepStep st u).2 ++ (sweepGo (sweepStep st u).1 us).2) := rfl

theorem closeSocket_conns_mono (st : St) (k : Nat) :
    ∀ p ∈ (closeSocket st k).1.conns, p ∈ st.conns := by
  intro p hp
  cases hfs : findSock st.sockets k with
  | none =>
      rw [closeSocket_nosock hfs] at hp
      exact hp
  | some w =>
      cases hfc : findConn st.conns w.id with
      | some h0 =>
          rw [closeSocket_found hfs hfc] at hp
          exact (mem_delConn.mp hp).1
      | none =>
          rw [closeSocket_noconn hfs hfc] at hp
          exact hp

theorem closeSocket_socks_mono (st : St) (k : Nat) :
    ∀ w' ∈ (closeSocket st k).1.sockets, w' ∈ st.sockets := by
  intro w' hw'
  cases hfs : findSock st.sockets k with
  | none =>
      rw [closeSocket_nosock hfs] at hw'
      exact hw'
  | some w =>
      cases hfc : findConn st.conns w.id with
      | some h0 =>
          rw [closeSocket_found hfs hfc] at hw'
          exact (mem_delSock.mp hw').1
      | none =>
          rw [closeSocket_noconn hfs hfc] at hw'
          exact (mem_delSock.mp hw').1

theorem sweepStep_conns_mono (st : St) (u' : String) :
    ∀ p ∈ (sweepStep st u').1.conns, p ∈ st.conns := by
  intro p hp
  cases hfc : findConn st.conns u' with
  | none =>
      rw [sweepStep_noconn hfc] at hp
      exact hp
  | some h =>
      cases hfs : findSock st.sockets h.wsKey with
      | none =>
          rw [sweepStep_nosock hfc hfs] at hp
          exact hp
      | some w =>
          cases ha : w.alive with
          | true =>
              rw [sweepStep_alive hfc hfs ha] at hp
              exact hp
          | false =>
              rw [sweepStep_dead hfc hfs ha] at hp
              exact closeSocket_conns_mono st h.wsKey p hp

theorem sweepStep_sock_keys (st : St) (u' : String) :
    ∀ w' ∈ (sweepStep st u').1.sockets, ∃ w0 ∈ st.sockets, w0.key = w'.key := by
  intro w' hw'
  cases hfc : findConn st.conns u' with
  | none =>
      rw [sweepStep_noconn hfc] at hw'
      exact ⟨w', hw', rfl⟩
  | some h =>
      cases hfs : findSock st.sockets h.wsKey with
      | none =>
          rw [sweepStep_nosock hfc hfs] at hw'
          exact ⟨w', hw', rfl⟩
      | some w =>
          cases ha : w.alive with
          | true =>
              rw [sweepStep_alive hfc hfs ha] at hw'
              obtain ⟨w0, hw0, hweq⟩ := List.mem_map.mp hw'
              refine ⟨w0, hw0, ?_⟩
              subst hweq
              by_cases hc : w0.key = h.wsKey <;> simp [hc]
          | false =>
              rw [sweepStep_dead hfc hfs ha] at hw'
              exact ⟨w', closeSocket_socks_mono st h.wsKey w' hw', rfl⟩

theorem sweepGo_conns_mono (st : St) (us : List String) :
    ∀ p ∈ (sweepGo st us).1.conns, p ∈ st.conns := by
  induction us generalizing st with
  | nil => intro p hp; exact hp
  | cons u' us ih =>
      intro p hp
      rw [sweepGo_cons] at hp
      exact sweepStep_conns_mono st u' p (ih _ p hp)

theorem sweepGo_sock_keys (st : St) (us : List String) :
    ∀ w' ∈ (sweepGo st us).1.sockets, ∃ w0 ∈ st.sockets, w0.key = w'.key := by
  induction us generalizing st with
  | nil => intro w' hw'; exact ⟨w', hw', rfl⟩
  | cons u' us ih =>
      intro w' hw'
      rw [sweepGo_cons] at hw'
      obtain ⟨w1, hw1, hkeq⟩ := ih _ w' hw'
      obtain ⟨w0, hw0, hkeq'⟩ := sweepStep_sock_keys st u' w1 hw1
      exact ⟨w0, hw0, by rw [hkeq', hkeq]⟩

theorem sweepStep_other (st : St) (u' u : String) (h : Handle) (w : WS)
    (hwf : WF st) (hne : u ≠ u') (hc : (u, h) ∈ st.conns)
    (hw : w ∈ st.sockets) (hk : w.key = h.wsKey) :
    (u, h) ∈ (sweepStep st u').1.conns ∧ w ∈ (sweepStep st u').1.sockets := by
  obtain ⟨h1, h2, h3, h4, h5⟩ := hwf
  cases hfc : findConn st.conns u' with
  | none =>
      rw [sweepStep_noconn hfc]
      exact ⟨hc, hw⟩
  | some h' =>
      have hc' : (u', h') ∈ st.conns := findConn_eq_some hfc
      have hkne : w.key ≠ h'.wsKey := by
        intro hkk
        obtain ⟨w0, hw0, hw0k, hw0id⟩ := h4 (u', h') hc'
        obtain ⟨w1, hw1, hw1k, hw1id⟩ := h4 (u, h) hc
        dsimp only at hw0k hw0id hw1k hw1id
        have e0 : w = w0 := sock_unique h2 hw hw0 (by rw [hkk, hw0k])
        have e1 : w = w1 := sock_unique h2 hw hw1 (by rw [hk, hw1k])
        apply hne
        rw [← hw1id, ← e1, e0, hw0id]
      cases hfs : findSock st.sockets h'.wsKey with
      | none =>
          rw [sweepStep_nosock hfc hfs]
          exact ⟨hc, hw⟩
      | some w' =>
          have hw'id : w'.id = u' := by
            obtain ⟨hw'm, hw'k⟩ := findSock_eq_some hfs
            obtain ⟨w0, hw0, hw0k, hw0id⟩ := h4 (u', h') hc'
            dsimp only at hw0k hw0id
            have : w' = w0 := sock_unique h2 hw'm hw0 (by rw [hw'k, hw0k])
            rw [this, hw0id]
          cases ha : w'.alive with
          | true =>
              rw [sweepStep_alive hfc hfs ha]
              refine ⟨hc, ?_⟩
              exact List.mem_map.mpr ⟨w, hw, by simp [hkne]⟩
          | false =>
              rw [sweepStep_dead hfc hfs ha]
              have hfc2 : findConn st.conns w'.id = some h' := by rw [hw'id]; exact hfc
              rw [closeSocket_found hfs hfc2]
              constructor
              · exact mem_delConn.mpr ⟨hc, by rw [hw'id]; exact hne⟩
              · exact mem_delSock.mpr ⟨hw, hkne⟩

theorem sweepGo_skip (st : St) (us : List String) (u : String) (h : Handle) (w : WS)
    (hwf : WF st) (hnm : u ∉ us) (hc : (u, h) ∈ st.conns)
    (hw : w ∈ st.sockets) (hk : w.key = h.wsKey) :
    (u, h) ∈ (sweepGo st us).1.conns ∧ w ∈ (sweepGo st us).1.sockets := by
  induction us generalizing st with
  | nil => exact ⟨hc, hw⟩
  | cons u' us ih =>
      have hne : u ≠ u' := fun e => hnm (by rw [e]; exact List.mem_cons_self u' us)
      have hnm' : u ∉ us := fun hm => hnm (List.mem_cons_of_mem u' hm)
      obtain ⟨hc1, hw1⟩ := sweepStep_other st u' u h w hwf hne hc hw hk
      rw [sweepGo_cons]
      exact ih _ (WF_sweepStep st u' hwf) hnm' hc1 hw1

theorem sweepGo_alive_hit (st : St) (us : List String) (u : String) (h : Handle) (w : WS)
    (hwf : WF st) (hnd : us.Nodup) (hu : u ∈ us) (hc : (u, h) ∈ st.conns)
    (hw : w ∈ st.sockets) (hk : w.key = h.wsKey) (ha : w.alive = true) :
    (u, h) ∈ (sweepGo st us).1.conns
    ∧ ({ w with alive := false }) ∈ (sweepGo st us).1.sockets
    ∧ Out.ping h.wsKey ("hey") ∈ (sweepGo st us).2 := by
  induction us generalizing st with
  | nil => cases hu
  | cons u' us ih =>
      obtain ⟨hnin, hnd'⟩ := List.nodup_cons.mp hnd
      by_cases heq : u' = u
      · subst heq
        have hfc : findConn st.conns u' = some h := findConn_of_mem_nodup hwf.1 hc
        have hfs : findSock st.sockets h.wsKey = some w :=
          findSock_of_mem_nodup hwf.2.1 hw hk
        have hstep := sweepStep_alive hfc hfs ha
        have hwf1 : WF (sweepStep st u').1 := WF_sweepStep st u' hwf
        rw [hstep] at hwf1
        have hc1 : (u', h) ∈ (sweepStep st u').1.conns := by rw [hstep]; exact hc
        have hw1 : ({ w with alive := false }) ∈ (sweepStep st u').1.sockets := by
          rw [hstep]
          exact List.mem_map.mpr ⟨w, hw, by simp [hk]⟩
        rw [sweepGo_cons]
        obtain ⟨hc2, hw2⟩ := sweepGo_skip (sweepStep st u').1 us u' h
          ({ w with alive := false }) (by rw [hstep]; exact hwf1) hnin hc1 hw1 hk
        refine ⟨hc2, hw2, ?_⟩
        rw [hstep]
        exact List.mem_append.mpr (Or.inl (by simp))
      · have hu' : u ∈ us := by
          rcases List.mem_cons.mp hu with e | hm
          · exact absurd e.symm heq
          · exact hm
        obtain ⟨hc1, hw1⟩ := sweepStep_other st u' u h w hwf
          (fun e => heq e.symm) hc hw hk
        rw [sweepGo_cons]
        obtain ⟨a1, a2, a3⟩ := ih _ (WF_sweepStep st u' hwf) hnd' hu' hc1 hw1
        exact ⟨a1, a2, List.mem_append.mpr (Or.inr a3)⟩

theorem sweepGo_dead_hit (st : St) (us : List String) (u : String) (h : Handle) (w : WS)
    (hwf : WF st) (hnd : us.Nodup) (hu : u ∈ us) (hc : (u, h) ∈ st.conns)
    (hw : w ∈ st.sockets) (hk : w.key = h.wsKey) (ha : w.alive = false) :
    (∀ h', (u, h') ∉ (sweepGo st us).1.conns)
    ∧ (∀ w', w' ∈ (sweepGo st us).1.sockets → w'.key ≠ h.wsKey)
    ∧ Out.disconnected u ∈ (sweepGo st us).2 := by
  induction us generalizing st with
  | nil => cases hu
  | cons u' us ih =>
      obtain ⟨hnin, hnd'⟩ := List.nodup_cons.mp hnd
      by_cases heq : u' = u
      · subst heq
        have hfc : findConn st.conns u' = some h := findConn_of_mem_nodup hwf.1 hc
        have hfs : findSock st.sockets h.wsKey = some w :=
          findSock_of_mem_nodup hwf.2.1 hw hk
        have hwid : w.id = u' := by
          obtain ⟨w0, hw0, hw0k, hw0id⟩ := hwf.2.2.2.1 (u', h) hc
          dsimp only at hw0k hw0id
          have : w = w0 := sock_unique hwf.2.1 hw hw0 (by rw [hk, hw0k])
          rw [this, hw0id]
        have hfc2 : findConn st.conns w.id = some h := by rw [hwid]; exact hfc
        have hclose := closeSocket_found hfs hfc2
        have hstep := sweepStep_dead hfc hfs ha
        have hst1 : (sweepStep st u').1
            = { st with conns := delConn st.conns w.id,
                        sockets := delSock st.sockets h.wsKey } := by
          rw [hstep, hclose]
        have habs : ∀ h', (u', h') ∉ (sweepStep st u').1.conns := by
          intro h' hm
          rw [hst1] at hm
          exact absurd hwid.symm (mem_delConn.mp hm).2
        have hnok : ∀ w', w' ∈ (sweepStep st u').1.sockets → w'.key ≠ h.wsKey := by
          intro w' hm
          rw [hst1] at hm
          exact (mem_delSock.mp hm).2
        rw [sweepGo_cons]
        refine ⟨?_, ?_, ?_⟩
        · intro h' hm
          exact habs h' (sweepGo_conns_mono _ us (u', h') hm)
        · intro w' hm
          obtain ⟨w0, hw0, hkeq⟩ := sweepGo_sock_keys _ us w' hm
          rw [← hkeq]
          exact hnok w0 hw0
        · refine List.mem_append.mpr (Or.inl ?_)
          rw [hstep, hclose]
          simp [hwid]
      · have hu' : u ∈ us := by
          rcases List.mem_cons.mp hu with e | hm
          · exact absurd e.symm heq
          · exact hm
        obtain ⟨hc1, hw1⟩ := sweepStep_other st u' u h w hwf
          (fun e => heq e.symm) hc hw hk
        rw [sweepGo_cons]
        obtain ⟨a1, a2, a3⟩ := ih _ (WF_sweepStep st u' hwf) hnd' hu' hc1 hw1
        exact ⟨a1, a2, List.mem_append.mpr (Or.inr a3)⟩

/-! ## Claim C5: the heartbeat -/

/-- C5: under the periodic heartbeat sweep, a registered connection whose
liveness flag is set at sweep time is kept — the sweep only clears its flag
and sends it a ping, never disconnects it — while a registered connection
whose flag is still cleared (no pong arrived since the previous probe) is
force-disconnected and removed from the registry; consequently a connection
that never responds to two consecutive probes is gone after the second sweep. -/
theorem C5_heartbeat (st : St) (u : String) (h : Handle) (w : WS)
    (hwf : WF st) (hc : (u, h) ∈ st.conns) (hw : w ∈ st.sockets)
    (hk : w.key = h.wsKey) :
    (w.alive = true →
      (u, h) ∈ (step st .evSweep).1.conns
      ∧ ({ w with alive := false }) ∈ (step st .evSweep).1.sockets
      ∧ Out.ping h.wsKey ("hey") ∈ (step st .evSweep).2)
    ∧ (w.alive = false →
      (∀ h', (u, h') ∉ (step st .evSweep).1.conns)
      ∧ Out.disconnected u ∈ (step st .evSweep).2)
    ∧ (w.alive = true →
      ∀ h', (u, h') ∉ (step (step st .evSweep).1 .evSweep).1.conns) := by
  have hu : u ∈ st.conns.map Prod.fst := List.mem_map.mpr ⟨(u, h), hc, rfl⟩
  have hstep : step st .evSweep = sweepGo st (st.conns.map Prod.fst) := rfl
  refine ⟨?_, ?_, ?_⟩
  · intro ha
    rw [hstep]
    exact sweepGo_alive_hit st _ u h w hwf hwf.1 hu hc hw hk ha
  · intro ha
    rw [hstep]
    obtain ⟨habs, _, hdis⟩ := sweepGo_dead_hit st _ u h w hwf hwf.1 hu hc hw hk ha
    exact ⟨habs, hdis⟩
  · intro ha
    have hhit := sweepGo_alive_hit st _ u h w hwf hwf.1 hu hc hw hk ha
    rw [← hstep] at hhit
    obtain ⟨hc1, hw1, _⟩ := hhit
    have hwf1 : WF (step st .evSweep).1 := WF_step st .evSweep rfl hwf
    have hu1 : u ∈ (step st .evSweep).1.conns.map Prod.fst :=
      List.mem_map.mpr ⟨(u, h), hc1, rfl⟩
    have hstep1 : step (step st .evSweep).1 .evSweep
        = sweepGo (step st .evSweep).1 ((step st .evSweep).1.conns.map Prod.fst) := rfl
    intro h'
    rw [hstep1]
    exact (sweepGo_dead_hit (step st .evSweep).1 _ u h ({ w with alive := false })
      hwf1 hwf1.1 hu1 hc1 hw1 hk rfl).1 h'

/-- C5 witness: in the two-connection demo state, with both liveness flags
set, the first connection survives one sweep (it is pinged and marked stale)
and is removed by a second sweep with no pong in between. -/
theorem C5_heartbeat_witness :
    (wA.alive = true →
      ("idA", hA) ∈ (step stTwo .evSweep).1.conns
      ∧ ({ wA with alive := false }) ∈ (step stTwo .evSweep).1.sockets
      ∧ Out.ping hA.wsKey ("hey") ∈ (step stTwo .evSweep).2)
    ∧ (wA.alive = false →
      (∀ h', ("idA", h') ∉ (step stTwo .evSweep).1.conns)
      ∧ Out.disconnected "idA" ∈ (step stTwo .evSweep).2)
    ∧ (wA.alive = true →
      ∀ h', ("idA", h') ∉ (step (step stTwo .evSweep).1 .evSweep).1.conns) :=
  C5_heartbeat stTwo "idA" hA wA (by decide) (by decide) (by decide) (by decide)

/-! ## Broadcast delivery counting -/

theorem nodup_all_eq_singleton {α : Type} {l : List α} {w : α} (hnd : l.Nodup)
    (hw : w ∈ l) (hall : ∀ x ∈ l, x = w) : l = [w] := by
  cases l with
  | nil => cases hw
  | cons a t =>
      have ha : a = w := hall a (List.mem_cons_self a t)
      subst ha
      cases t with
      | nil => rfl
      | cons b t' =>
          have hb : b = a := hall b (List.mem_cons_of_mem a (List.mem_cons_self b t'))
          rw [List.nodup_cons] at hnd
          have : a ∈ b :: t' := by rw [hb]; exact List.mem_cons_self a t'
          exact absurd this hnd.1

theorem countP_eq_one_key (ss : List WS) (hnd : (ss.map WS.key).Nodup) (w : WS)
    (hm : w ∈ ss) (p : WS → Bool) (hp : p w = true)
    (hkey : ∀ x ∈ ss, p x = true → x.key = w.key) :
    ss.countP p = 1 := by
  rw [List.countP_eq_length_filter]
  have hfnd : (ss.filter p).Nodup :=
    List.Nodup.of_map WS.key (((List.filter_sublist ss).map WS.key).nodup hnd)
  have hall : ∀ x ∈ ss.filter p, x = w := by
    intro x hx
    obtain ⟨hxs, hxp⟩ := List.mem_filter.mp hx
    exact sock_unique hnd hxs hm (hkey x hxs hxp)
  rw [nodup_all_eq_singleton hfnd (List.mem_filter.mpr ⟨hm, hp⟩) hall]
  rfl

theorem deliverCount_publishLocal (ss : List WS) (topic : String) (buf : List Nat)
    (k : Nat) :
    deliverCount (publishLocal ss topic buf) k
      = ss.countP fun w => (w.key == k) && w.subs.contains topic := by
  unfold deliverCount publishLocal
  rw [List.countP_map, List.countP_filter]
  rfl

theorem deliverCount_dbg (c : Bool) (s : String) (rest : List Out) (k : Nat) :
    deliverCount ((if c then [Out.log s] else []) ++ rest) k = deliverCount rest k := by
  cases c <;> simp [deliverCount, List.countP_append, List.countP_cons]

theorem mem_publishLocal {ss : List WS} {topic : String} {buf : List Nat} {o : Out}
    (hm : o ∈ publishLocal ss topic buf) :
    ∃ w ∈ ss, o = Out.deliver w.key buf ∧ w.subs.contains topic = true := by
  unfold publishLocal at hm
  obtain ⟨w, hwf, heq⟩ := List.mem_map.mp hm
  obtain ⟨hws, hcont⟩ := List.mem_filter.mp hwf
  exact ⟨w, hws, heq.symm, hcont⟩

theorem step_toAll_redis {st : St} {event : String} {args : List TVal}
    (hr : st.opts.redisUrl.isSome = true) :
    step st (.evToAll event args)
      = (st, [Out.redisPub ("a")
          (encodePacket { type := .EVENT, data := .vstr event :: args })]) := by
  simp only [step, hr, if_true]

theorem step_toAll_local {st : St} {event : String} {args : List TVal}
    (hr : st.opts.redisUrl = none) :
    step st (.evToAll event args)
      = (st, (if isDebug st.opts then
            [Out.log ("Publishing event " ++ event ++ " to group a")]
          else [])
          ++ publishLocal st.sockets "a"
            (encodePacket { type := .EVENT, data := .vstr event :: args })) := by
  simp only [step, hr, Option.isSome_none, Bool.false_eq_true, if_false]

theorem step_to_local {st : St} {g event : String} {args : List TVal}
    (hr : st.opts.redisUrl = none) :
    step st (.evTo g event args)
      = (st, (if isDebug st.opts then
            [Out.log ("Publishing event " ++ event ++ " to group " ++ g)]
          else [])
          ++ publishLocal st.sockets g
            (encodePacket { type := .EVENT, data := .vstr event :: args })) := by
  simp only [step, hr, Option.isSome_none, Bool.false_eq_true, if_false]

/-! ## Claim C4: group broadcast isolation -/

/-- C4: without a backbone, broadcasting to group `g` via `to` delivers the
packet exactly once to a connection whose socket joined `g`, and never to a
connection whose socket did not join `g` (one in a disjoint group). -/
theorem C4_group_broadcast (st : St) (g event : String) (args : List TVal)
    (w1 w2 : WS) (hr : st.opts.redisUrl = none)
    (hnd : (st.sockets.map WS.key).Nodup)
    (h1 : w1 ∈ st.sockets) (hg1 : w1.subs.contains g = true)
    (h2 : w2 ∈ st.sockets) (hg2 : w2.subs.contains g = false) :
    deliverCount (step st (.evTo g event args)).2 w1.key = 1
    ∧ deliverCount (step st (.evTo g event args)).2 w2.key = 0 := by
  rw [step_to_local hr]
  show deliverCount ((if isDebug st.opts then _ else _) ++ _) w1.key = 1
    ∧ deliverCount ((if isDebug st.opts then _ else _) ++ _) w2.key = 0
  rw [deliverCount_dbg, deliverCount_dbg, deliverCount_publishLocal,
    deliverCount_publishLocal]
  constructor
  · refine countP_eq_one_key st.sockets hnd w1 h1 _
      (by simp only [beq_self_eq_true, Bool.true_and]; exact hg1) ?_
    intro x _ hx
    have := (Bool.and_eq_true _ _).mp hx
    simpa using this.1
  · rw [List.countP_eq_zero]
    intro w hw hx
    obtain ⟨hk, hcont⟩ := (Bool.and_eq_true _ _).mp hx
    have hk' : w.key = w2.key := by simpa using hk
    have : w = w2 := sock_unique hnd hw h2 hk'
    rw [this] at hcont
    rw [hcont] at hg2
    cases hg2

/-- C4 witness: after two connections open and join the disjoint groups room1
and room2, broadcasting to room1 reaches the first exactly once and the second
never. -/
theorem C4_group_broadcast_witness :
    deliverCount (step stGroups (.evTo "room1" "x" [])).2 wAroom.key = 1
    ∧ deliverCount (step stGroups (.evTo "room1" "x" [])).2 wBroom.key = 0 :=
  C4_group_broadcast stGroups "room1" "x" [] wAroom wBroom (by decide) (by decide)
    (by decide) (by decide) (by decide) (by decide)

/-! ## Claim C6: toAll encoding and delivery -/

/-- C6: without a backbone, `toAll` encodes exactly one packet — type EVENT,
data the event name followed by the arguments in order — every transport
delivery carries exactly that buffer, and in the two-connection scenario with
distinct identities both connections receive it exactly once, and the buffer
decodes back to the packet. -/
theorem C6_toAll_scenario (st : St) (event : String) (args : List TVal)
    (u1 u2 : String) (g1 g2 : Handle) (w1 w2 : WS)
    (hwf : WF st) (hr : st.opts.redisUrl = none) (hne : u1 ≠ u2)
    (hc1 : (u1, g1) ∈ st.conns) (hc2 : (u2, g2) ∈ st.conns)
    (hw1 : w1 ∈ st.sockets) (hk1 : w1.key = g1.wsKey)
    (hw2 : w2 ∈ st.sockets) (hk2 : w2.key = g2.wsKey)
    (ha1 : w1.subs.contains "a" = true) (ha2 : w2.subs.contains "a" = true) :
    (∀ k b, Out.deliver k b ∈ (step st (.evToAll event args)).2
      → b = encodePacket { type := .EVENT, data := .vstr event :: args })
    ∧ deliverCount (step st (.evToAll event args)).2 w1.key = 1
    ∧ deliverCount (step st (.evToAll event args)).2 w2.key = 1
    ∧ Out.deliver w1.key
        (encodePacket { type := .EVENT, data := .vstr event :: args })
        ∈ (step st (.evToAll event args)).2
    ∧ Out.deliver w2.key
        (encodePacket { type := .EVENT, data := .vstr event :: args })
        ∈ (step st (.evToAll event args)).2
    ∧ decodePacket (encodePacket { type := .EVENT, data := .vstr event :: args })
        = some { type := .EVENT, data := .vstr event :: args }
    ∧ w1.key ≠ w2.key := by
  have hnd := hwf.2.1
  have hkne : w1.key ≠ w2.key := by
    intro hkk
    obtain ⟨wa, hwa, hwak, hwaid⟩ := hwf.2.2.2.1 (u1, g1) hc1
    obtain ⟨wb, hwb, hwbk, hwbid⟩ := hwf.2.2.2.1 (u2, g2) hc2
    dsimp only at hwak hwaid hwbk hwbid
    have e1 : w1 = wa := sock_unique hnd hw1 hwa (by rw [hk1, hwak])
    have e2 : w2 = wb := sock_unique hnd hw2 hwb (by rw [hk2, hwbk])
    have e3 : w1 = w2 := sock_unique hnd hw1 hw2 hkk
    apply hne
    rw [← hwaid, ← e1, e3, e2, hwbid]
  rw [step_toAll_local hr]
  refine ⟨?_, ?_, ?_, ?_, ?_, decodePacket_encodePacket _, hkne⟩
  · intro k b hm
    rcases List.mem_append.mp hm with hl | hrm
    · cases hdbg : isDebug st.opts <;> rw [hdbg] at hl <;> simp at hl
    · obtain ⟨w, _, heq, _⟩ := mem_publishLocal hrm
      cases heq
      rfl
  · show deliverCount ((if isDebug st.opts then _ else _) ++ _) w1.key = 1
    rw [deliverCount_dbg, deliverCount_publishLocal]
    refine countP_eq_one_key st.sockets hnd w1 hw1 _
      (by simp only [beq_self_eq_true, Bool.true_and]; exact ha1) ?_
    intro x _ hx
    have := (Bool.and_eq_true _ _).mp hx
    simpa using this.1
  · show deliverCount ((if isDebug st.opts then _ else _) ++ _) w2.key = 1
    rw [deliverCount_dbg, deliverCount_publishLocal]
    refine countP_eq_one_key st.sockets hnd w2 hw2 _
      (by simp only [beq_self_eq_true, Bool.true_and]; exact ha2) ?_
    intro x _ hx
    have := (Bool.and_eq_true _ _).mp hx
    simpa using this.1
  · refine List.mem_append.mpr (Or.inr ?_)
    unfold publishLocal
    exact List.mem_map.mpr ⟨w1, List.mem_filter.mpr ⟨hw1, ha1⟩, rfl⟩
  · refine List.mem_append.mpr (Or.inr ?_)
    unfold publishLocal
    exact List.mem_map.mpr ⟨w2, List.mem_filter.mpr ⟨hw2, ha2⟩, rfl⟩

/-- C6 witness: the scenario at the concrete two-connection state with the
broadcast `toAll("ping", 42)`. -/
theorem C6_toAll_scenario_witness :
    (∀ k b, Out.deliver k b ∈ (step stTwo (.evToAll "ping" [.vnum 42])).2
      → b = encodePacket { type := .EVENT, data := [.vstr "ping", .vnum 42] })
    ∧ deliverCount (step stTwo (.evToAll "ping" [.vnum 42])).2 wA.key = 1
    ∧ deliverCount (step stTwo (.evToAll "ping" [.vnum 42])).2 wB.key = 1
    ∧ Out.deliver wA.key
        (encodePacket { type := .EVENT, data := [.vstr "ping", .vnum 42] })
        ∈ (step stTwo (.evToAll "ping" [.vnum 42])).2
    ∧ Out.deliver wB.key
        (encodePacket { type := .EVENT, data := [.vstr "ping", .vnum 42] })
        ∈ (step stTwo (.evToAll "ping" [.vnum 42])).2
    ∧ decodePacket (encodePacket { type := .EVENT, data := [.vstr "ping", .vnum 42] })
        = some { type := .EVENT, data := [.vstr "ping", .vnum 42] }
    ∧ wA.key ≠ wB.key :=
  C6_toAll_scenario stTwo "ping" [.vnum 42] "idA" "idB" hA hB wA wB
    (by decide) (by decide) (by decide) (by decide) (by decide)
    (by decide) (by decide) (by decide) (by decide) (by decide) (by decide)

/-! ## Claim C7: close semantics -/

theorem deliver_mem_toAll {st : St} {k : Nat} {b : List Nat} {event : String}
    {args : List TVal}
    (hm : Out.deliver k b ∈ (step st (.evToAll event args)).2) :
    ∃ w ∈ st.sockets, w.key = k ∧ w.subs.contains "a" = true := by
  cases hr : st.opts.redisUrl with
  | some url =>
      rw [step_toAll_redis (by rw [hr]; rfl)] at hm
      simp at hm
  | none =>
      rw [step_toAll_local hr] at hm
      rcases List.mem_append.mp hm with hl | hrm
      · cases hdbg : isDebug st.opts <;> rw [hdbg] at hl <;> simp at hl
      · obtain ⟨w, hws, heq, hcont⟩ := mem_publishLocal hrm
        cases heq
        exact ⟨w, hws, rfl, hcont⟩

/-- C7: after a connection's socket closes, its identity is gone from the
registry, a subsequent `toAll` broadcast is never delivered to that socket
(and the step is total, raising nothing), and a later inbound message frame
on that socket key is a strict no-op. -/
theorem C7_close (st : St) (u : String) (h : Handle) (w : WS) (buf : List Nat)
    (event : String) (args : List TVal)
    (hwf : WF st) (hc : (u, h) ∈ st.conns) (hw : w ∈ st.sockets)
    (hk : w.key = h.wsKey) :
    (∀ h', (u, h') ∉ (step st (.evClose h.wsKey)).1.conns)
    ∧ (∀ b, Out.deliver h.wsKey b
        ∉ (step (step st (.evClose h.wsKey)).1 (.evToAll event args)).2)
    ∧ step (step st (.evClose h.wsKey)).1 (.evMessage h.wsKey buf)
        = ((step st (.evClose h.wsKey)).1, []) := by
  obtain ⟨h1, h2, h3, h4, h5⟩ := hwf
  have hwid : w.id = u := by
    obtain ⟨w0, hw0, hw0k, hw0id⟩ := h4 (u, h) hc
    dsimp only at hw0k hw0id
    have : w = w0 := sock_unique h2 hw hw0 (by rw [hk, hw0k])
    rw [this, hw0id]
  have hfs : findSock st.sockets h.wsKey = some w := findSock_of_mem_nodup h2 hw hk
  have hfc : findConn st.conns w.id = some h := by
    rw [hwid]
    exact findConn_of_mem_nodup h1 hc
  have hstep : step st (.evClose h.wsKey) = closeSocket st h.wsKey := rfl
  have hst1 : (step st (.evClose h.wsKey)).1
      = { st with conns := delConn st.conns w.id,
                  sockets := delSock st.sockets h.wsKey } := by
    rw [hstep, closeSocket_found hfs hfc]
  have hnosock : ∀ w' ∈ (step st (.evClose h.wsKey)).1.sockets, w'.key ≠ h.wsKey := by
    intro w' hm
    rw [hst1] at hm
    exact (mem_delSock.mp hm).2
  refine ⟨?_, ?_, ?_⟩
  · intro h' hm
    rw [hst1] at hm
    exact absurd hwid.symm (mem_delConn.mp hm).2
  · intro b hm
    obtain ⟨w', hw', hwk, _⟩ := deliver_mem_toAll hm
    exact hnosock w' hw' hwk
  · have hfs1 : findSock (step st (.evClose h.wsKey)).1.sockets h.wsKey = none :=
      findSock_eq_none_iff.mpr hnosock
    exact step_message_nosock hfs1

/-- C7 witness: closing the first demo connection removes `idA` from the
registry, a following `toAll` is not delivered to it, and a message frame on
its socket key is a no-op. -/
theorem C7_close_witness :
    (∀ h', ("idA", h') ∉ (step stTwo (.evClose hA.wsKey)).1.conns)
    ∧ (∀ b, Out.deliver hA.wsKey b
        ∉ (step (step stTwo (.evClose hA.wsKey)).1 (.evToAll "x" [])).2)
    ∧ step (step stTwo (.evClose hA.wsKey)).1 (.evMessage hA.wsKey [7])
        = ((step stTwo (.evClose hA.wsKey)).1, []) :=
  C7_close stTwo "idA" hA wA [7] "x" [] (by decide) (by decide) (by decide) (by decide)

/-! ## Claim C9: the debug flag only affects diagnostic logging -/

theorem stripDiag_append (a b : List Out) :
    stripDiag (a ++ b) = stripDiag a ++ stripDiag b := by
  unfold stripDiag
  exact List.filter_append a b

theorem stripDiag_dbg (c : Bool) (s : String) :
    stripDiag (if c then [Out.log s] else []) = [] := by
  cases c <;> rfl

theorem step_redisMsg_redis {st : St} {channel : String} {buf : List Nat}
    (hr : st.opts.redisUrl.isSome = true) :
    step st (.evRedisMsg channel buf)
      = (st, publishLocal st.sockets (channel.drop 2) buf) := by
  simp only [step, hr, if_true]

theorem step_redisMsg_none {st : St} {channel : String} {buf : List Nat}
    (hr : st.opts.redisUrl = none) :
    step st (.evRedisMsg channel buf) = (st, []) := by
  simp only [step, hr, Option.isSome_none, Bool.false_eq_true, if_false]

theorem step_redisPMsg_redis {st : St} {channel : String} {buf : List Nat}
    (hr : st.opts.redisUrl.isSome = true) :
    step st (.evRedisPMsg channel buf)
      = (st, (if isDebug st.opts then
          [Out.log ("Publishing message from REDIS to group " ++ channel.drop 2)]
        else []) ++ publishLocal st.sockets (channel.drop 2) buf) := by
  simp only [step, hr, if_true]

theorem step_redisPMsg_none {st : St} {channel : String} {buf : List Nat}
    (hr : st.opts.redisUrl = none) :
    step st (.evRedisPMsg channel buf) = (st, []) := by
  simp only [step, hr, Option.isSome_none, Bool.false_eq_true, if_false]

theorem step_to_redis {st : St} {g event : String} {args : List TVal}
    (hr : st.opts.redisUrl.isSome = true) :
    step st (.evTo g event args)
      = (st, [Out.redisPub ("g." ++ g)
          (encodePacket { type := .EVENT, data := .vstr event :: args })]) := by
  simp only [step, hr, if_true]

theorem closeSocket_debug (st : St) (k : Nat) (d : Option Bool) :
    (closeSocket (setDebug st d) k).1 = setDebug (closeSocket st k).1 d
    ∧ stripDiag (closeSocket (setDebug st d) k).2 = stripDiag (closeSocket st k).2 := by
  cases hfs : findSock st.sockets k with
  | none =>
      rw [@closeSocket_nosock (setDebug st d) k hfs, closeSocket_nosock hfs]
      exact ⟨rfl, rfl⟩
  | some w =>
      cases hfc : findConn st.conns w.id with
      | some h0 =>
          rw [@closeSocket_found (setDebug st d) k w h0 hfs hfc,
            closeSocket_found hfs hfc]
          refine ⟨rfl, ?_⟩
          rw [stripDiag_append, stripDiag_append]
          rw [show (setDebug st d).opts = { st.opts with debug := d } from rfl]
          rw [show isDebug { st.opts with debug := d } = (d == some true) from rfl]
          rw [show isDebug st.opts = (st.opts.debug == some true) from rfl]
          rw [stripDiag_dbg, stripDiag_dbg]
      | none =>
          rw [@closeSocket_noconn (setDebug st d) k w hfs hfc,
            closeSocket_noconn hfs hfc]
          exact ⟨rfl, rfl⟩

theorem sweepStep_debug (st : St) (u : String) (d : Option Bool) :
    (sweepStep (setDebug st d) u).1 = setDebug (sweepStep st u).1 d
    ∧ stripDiag (sweepStep (setDebug st d) u).2 = stripDiag (sweepStep st u).2 := by
  cases hfc : findConn st.conns u with
  | none =>
      rw [@sweepStep_noconn (setDebug st d) u hfc, sweepStep_noconn hfc]
      exact ⟨rfl, rfl⟩
  | some h =>
      cases hfs : findSock st.sockets h.wsKey with
      | none =>
          rw [@sweepStep_nosock (setDebug st d) u h hfc hfs,
            sweepStep_nosock hfc hfs]
          exact ⟨rfl, rfl⟩
      | some w =>
          cases ha : w.alive with
          | true =>
              rw [@sweepStep_alive (setDebug st d) u h w hfc hfs ha,
                sweepStep_alive hfc hfs ha]
              exact ⟨rfl, rfl⟩
          | false =>
              rw [@sweepStep_dead (setDebug st d) u h w hfc hfs ha,
                sweepStep_dead hfc hfs ha]
              obtain ⟨e1, e2⟩ := closeSocket_debug st h.wsKey d
              refine ⟨e1, ?_⟩
              rw [stripDiag_append, stripDiag_append, e2]
              rw [show (setDebug st d).opts = { st.opts with debug := d } from rfl]
              rw [show isDebug { st.opts with debug := d } = (d == some true) from rfl]
              rw [show isDebug st.opts = (st.opts.debug == some true) from rfl]
              rw [stripDiag_dbg, stripDiag_dbg]

theorem sweepGo_debug (st : St) (us : List String) (d : Option Bool) :
    (sweepGo (setDebug st d) us).1 = setDebug (sweepGo st us).1 d
    ∧ stripDiag (sweepGo (setDebug st d) us).2 = stripDiag (sweepGo st us).2 := by
  induction us generalizing st with
  | nil => exact ⟨rfl, rfl⟩
  | cons u us ih =>
      rw [sweepGo_cons, sweepGo_cons]
      obtain ⟨e1, e2⟩ := sweepStep_debug st u d
      rw [e1]
      obtain ⟨f1, f2⟩ := ih (sweepStep st u).1
      exact ⟨f1, by rw [stripDiag_append, stripDiag_append, e2, f2]⟩

theorem step_debug (st : St) (e : Ev) (d : Option Bool) :
    (step (setDebug st d) e).1 = setDebug (step st e).1 d
    ∧ stripDiag (step (setDebug st d) e).2 = stripDiag (step st e).2 := by
  cases e with
  | evOpen k u => exact ⟨rfl, rfl⟩
  | evMessage k buf =>
      cases hfs : findSock st.sockets k with
      | none =>
          rw [@step_message_nosock (setDebug st d) k buf hfs, step_message_nosock hfs]
          exact ⟨rfl, rfl⟩
      | some w =>
          cases hfc : findConn st.conns w.id with
          | some h0 =>
              rw [@step_message_known (setDebug st d) k buf w h0 hfs hfc,
                step_message_known hfs hfc]
              exact ⟨rfl, rfl⟩
          | none =>
              rw [@step_message_unknown (setDebug st d) k buf w hfs hfc,
                step_message_unknown hfs hfc]
              exact ⟨rfl, rfl⟩
  | evPong k => exact ⟨rfl, rfl⟩
  | evClose k => exact closeSocket_debug st k d
  | evSweep => exact sweepGo_debug st (st.conns.map Prod.fst) d
  | evToAll event args =>
      cases hr : st.opts.redisUrl with
      | some url =>
          rw [@step_toAll_redis (setDebug st d) event args (by rw [show (setDebug st d).opts.redisUrl = st.opts.redisUrl from rfl, hr]; rfl),
            step_toAll_redis (by rw [hr]; rfl)]
          exact ⟨rfl, rfl⟩
      | none =>
          rw [@step_toAll_local (setDebug st d) event args hr, step_toAll_local hr]
          refine ⟨rfl, ?_⟩
          rw [stripDiag_append, stripDiag_append]
          rw [show (setDebug st d).opts = { st.opts with debug := d } from rfl]
          rw [show isDebug { st.opts with debug := d } = (d == some true) from rfl]
          rw [show isDebug st.opts = (st.opts.debug == some true) from rfl]
          rw [stripDiag_dbg, stripDiag_dbg]
          rfl
  | evTo g event args =>
      cases hr : st.opts.redisUrl with
      | some url =>
          rw [@step_to_redis (setDebug st d) g event args (by rw [show (setDebug st d).opts.redisUrl = st.opts.redisUrl from rfl, hr]; rfl),
            step_to_redis (by rw [hr]; rfl)]
          exact ⟨rfl, rfl⟩
      | none =>
          rw [@step_to_local (setDebug st d) g event args hr, step_to_local hr]
          refine ⟨rfl, ?_⟩
          rw [stripDiag_append, stripDiag_append]
          rw [show (setDebug st d).opts = { st.opts with debug := d } from rfl]
          rw [show isDebug { st.opts with debug := d } = (d == some true) from rfl]
          rw [show isDebug st.opts = (st.opts.debug == some true) from rfl]
          rw [stripDiag_dbg, stripDiag_dbg]
          rfl
  | evRedisMsg channel buf =>
      cases hr : st.opts.redisUrl with
      | some url =>
          rw [@step_redisMsg_redis (setDebug st d) channel buf (by rw [show (setDebug st d).opts.redisUrl = st.opts.redisUrl from rfl, hr]; rfl),
            step_redisMsg_redis (by rw [hr]; rfl)]
          exact ⟨rfl, rfl⟩
      | none =>
          rw [@step_redisMsg_none (setDebug st d) channel buf hr, step_redisMsg_none hr]
          exact ⟨rfl, rfl⟩
  | evRedisPMsg channel buf =>
      cases hr : st.opts.redisUrl with
      | some url =>
          rw [@step_redisPMsg_redis (setDebug st d) channel buf (by rw [show (setDebug st d).opts.redisUrl = st.opts.redisUrl from rfl, hr]; rfl),
            step_redisPMsg_redis (by rw [hr]; rfl)]
          refine ⟨rfl, ?_⟩
          rw [stripDiag_append, stripDiag_append]
          rw [show (setDebug st d).opts = { st.opts with debug := d } from rfl]
          rw [show isDebug { st.opts with debug := d } = (d == some true) from rfl]
          rw [show isDebug st.opts = (st.opts.debug == some true) from rfl]
          rw [stripDiag_dbg, stripDiag_dbg]
          rfl
      | none =>
          rw [@step_redisPMsg_none (setDebug st d) channel buf hr, step_redisPMsg_none hr]
          exact ⟨rfl, rfl⟩
  | evJoin k g => exact ⟨rfl, rfl⟩
  | evOnConnection b => exact ⟨rfl, rfl⟩

theorem runTrace_cons (st : St) (e : Ev) (es : List Ev) :
    runTrace st (e :: es)
      = ((runTrace (step st e).1 es).1,
          (step st e).2 ++ (runTrace (step st e).1 es).2) := rfl

theorem runTrace_debug (st : St) (evs : List Ev) (d : Option Bool) :
    (runTrace (setDebug st d) evs).1 = setDebug (runTrace st evs).1 d
    ∧ stripDiag (runTrace (setDebug st d) evs).2 = stripDiag (runTrace st evs).2 := by
  induction evs generalizing st with
  | nil => exact ⟨rfl, rfl⟩
  | cons e es ih =>
      rw [runTrace_cons, runTrace_cons]
      obtain ⟨e1, e2⟩ := step_debug st e d
      rw [e1]
      obtain ⟨f1, f2⟩ := ih (step st e).1
      exact ⟨f1, by rw [stripDiag_append, stripDiag_append, e2, f2]⟩

/-- C9: two runs of the provider on the same event trace under configurations
differing only in the debug flag have identical observable behavior apart
from diagnostic console logging — the reached states agree up to the stored
flag itself, and the outputs (deliveries, backbone publishes, pings, error
logs, handler invocations) agree once diagnostic log lines are stripped. -/
theorem C9_debug_noninterference (st : St) (evs : List Ev) (d1 d2 : Option Bool) :
    (runTrace (setDebug st d1) evs).1 = setDebug (runTrace (setDebug st d2) evs).1 d1
    ∧ stripDiag (runTrace (setDebug st d1) evs).2
        = stripDiag (runTrace (setDebug st d2) evs).2 := by
  obtain ⟨a1, a2⟩ := runTrace_debug st evs d1
  obtain ⟨b1, b2⟩ := runTrace_debug st evs d2
  constructor
  · rw [a1, b1]
    rfl
  · rw [a2, b2]

end Teckos
